import Mathlib

/-!
Shallow embedding of the mini-grep core (src/src/mini_grep/command.rs and
src/src/mini_grep/errors.rs): the command construction/validation pipeline and
the line-search algorithm, together with proofs of the specified properties.

Rust strings are modelled as Lean `String`; machine `usize` line counters as
`Nat` (line numbers stay far below any overflow bound for any finite file, and
the source never performs wrapping arithmetic on them); fallible operations
return `Except`; the open `File` handle owned by a `Command` is modelled as the
list of its lines together with a read cursor, because the only observable
behaviour of the handle in the source is reading lines from the current file
offset (`BufReader::new(&self.file).lines()` advances the shared offset).
A line whose read fails (invalid encoding) is modelled as `none`.
-/

namespace MiniGrep

/-- Decidable equality on `Except`, so that concrete runs of the fallible
operations can be checked by evaluation. -/
instance {ε α : Type} [DecidableEq ε] [DecidableEq α] :
    DecidableEq (Except ε α) := fun a b =>
  match a, b with
  | .error e, .error f =>
      if h : e = f then .isTrue (by rw [h])
      else .isFalse fun hc => h (by injection hc)
  | .error _, .ok _ => .isFalse fun hc => by injection hc
  | .ok _, .error _ => .isFalse fun hc => by injection hc
  | .ok x, .ok y =>
      if h : x = y then .isTrue (by rw [h])
      else .isFalse fun hc => h (by injection hc)

/-- `charsLead p l` is true iff `p` is an initial segment of `l`
(character-by-character comparison). -/
def charsLead : List Char → List Char → Bool
  | [], _ => true
  | _ :: _, [] => false
  | p :: ps, c :: cs => p == c && charsLead ps cs

/-- `charsContain pat l` is true iff `pat` occurs contiguously inside `l`. -/
def charsContain (pat : List Char) : List Char → Bool
  | [] => pat.isEmpty
  | c :: cs => charsLead pat (c :: cs) || charsContain pat cs

/-- Rust `str::contains`: literal substring containment of `pat` in `s`. -/
def strContains (s pat : String) : Bool :=
  charsContain pat.toList s.toList

/-- Rust `str::to_lowercase`, restricted to the per-character lowering that
is exact on ASCII input (the inputs exercised by the program's tests). -/
def lowerStr (s : String) : String :=
  String.mk (s.toList.map Char.toLower)

/-- Rust `pattern.trim().is_empty()`: the trimmed string is empty exactly when
every character of the original string is whitespace. -/
def trimmedIsEmpty (s : String) : Bool :=
  s.toList.all Char.isWhitespace

/-! ## Error types (src/src/mini_grep/errors.rs) -/

/-- `InvalidSyntaxError`: wrong number of CLI arguments; carries the
executable name. -/
inductive InvalidSyntaxError where
  | Missing (executable : String)
  | TooMany (executable : String)
  deriving DecidableEq, Repr

/-- Exit codes of `InvalidSyntaxError::code`. -/
def InvalidSyntaxError.code : InvalidSyntaxError → Int
  | .Missing _ => 126
  | .TooMany _ => 127

/-- `InvalidArgumentError`: semantically invalid argument.  The
`std::io::Error` causes are modelled by their display strings. -/
inductive InvalidArgumentError where
  | BlankPattern (pattern : String)
  | NotAFile (filename fileType : String)
  | FileNotFound (filename : String)
  | CannotResolvePath (filename cause : String)
  | NotAReadableFile (filename cause : String)
  deriving DecidableEq, Repr

/-- Exit codes of `InvalidArgumentError::code`. -/
def InvalidArgumentError.code : InvalidArgumentError → Int
  | .BlankPattern _ => 130
  | .NotAFile _ _ => 131
  | .FileNotFound _ => 132
  | .CannotResolvePath _ _ => 133
  | .NotAReadableFile _ _ => 134

/-- The `Display` implementation of `InvalidArgumentError`. -/
def InvalidArgumentError.display : InvalidArgumentError → String
  | .BlankPattern pattern =>
      "Cannot have a blank searched text '" ++ pattern ++ "'."
  | .NotAFile filename fileType =>
      "'" ++ filename ++ "' is not a file, it is a " ++ fileType ++ "."
  | .FileNotFound filename =>
      "The file '" ++ filename ++ "' does not exist."
  | .CannotResolvePath filename cause =>
      "Cannot resolve the path ('" ++ filename ++
        "') to the absolute path, due to this error " ++ cause ++ "."
  | .NotAReadableFile filename cause =>
      "Cannot open the file '" ++ filename ++ "', due to this error " ++ cause ++ "."

/-- The boxed `dyn MiniGrepArgsError` trait object: either of the two
concrete error types that implement the trait. -/
inductive MiniGrepArgsError where
  | ofInvalidSyntaxError (e : InvalidSyntaxError)
  | ofInvalidArgumentError (e : InvalidArgumentError)
  deriving DecidableEq, Repr

/-- Dynamic dispatch of `MiniGrepArgsError::code`. -/
def MiniGrepArgsError.code : MiniGrepArgsError → Int
  | .ofInvalidSyntaxError e => e.code
  | .ofInvalidArgumentError e => e.code

/-! ## Filesystem model

`Command::build` consults the filesystem through `Path::is_file`,
`Path::exists`, `Path::canonicalize`, `Path::is_dir` and `File::open`.  The
filesystem is modelled as a map from path strings to nodes; `canonicalize` is
an arbitrary path-resolution function that may fail with an I/O error.  The
model's canonical paths are Lean strings, hence always valid UTF-8, so the
source's panic branch for a non-UTF-8 absolute path (`absolute_path.to_str()`
returning `None`) is unreachable in the model. -/

/-- Kind of a filesystem node, as distinguished by the source
(`is_file` / `is_dir`, anything else being reported as `unknown`). -/
inductive NodeType where
  | regularFile
  | directory
  | other
  deriving DecidableEq, Repr

/-- A filesystem node: its kind, whether opening it for reading succeeds, and
(for regular files) its lines; `none` marks a line whose read fails. -/
structure FSNode where
  nodeType : NodeType
  readable : Bool
  lines : List (Option String)
  deriving DecidableEq, Repr

/-- The filesystem visible to `Command::build`. -/
structure FileSystem where
  node : String → Option FSNode
  canonical : String → Except String String

/-- `Path::is_file`: the path denotes an existing regular file. -/
def FileSystem.isFile (fs : FileSystem) (p : String) : Bool :=
  match fs.node p with
  | some nd => nd.nodeType = NodeType.regularFile
  | none => false

/-- `Path::exists`: the path denotes an existing node. -/
def FileSystem.pathExists (fs : FileSystem) (p : String) : Bool :=
  (fs.node p).isSome

/-- `Path::is_dir`: the path denotes an existing directory. -/
def FileSystem.isDir (fs : FileSystem) (p : String) : Bool :=
  match fs.node p with
  | some nd => nd.nodeType = NodeType.directory
  | none => false

/-! ## Command (src/src/mini_grep/command.rs) -/

/-- The validated command.  The open `File` field is modelled by the lines the
handle can still deliver: `lines` is the file content and `cursor` the current
read position (in lines; `cursor = lines.length` is end-of-file).  A freshly
opened handle has `cursor = 0`. -/
structure Command where
  pattern : String
  filename : String
  lines : List (Option String)
  cursor : Nat
  deriving DecidableEq, Repr

/-- The line scan of `Command::search`: starting at enumeration index `i`,
each line read failure is replaced by the default empty string and reported
(1-indexed) on the error channel, and a line is kept, paired with its
1-indexed number, when the keep predicate holds.  Returns the kept lines and
the error-channel line numbers, both in scan order. -/
def scanFrom (keep : String → Bool) : Nat → List (Option String) → List (Nat × String) × List Nat
  | _, [] => ([], [])
  | i, r :: rest =>
    let line := r.getD ""
    let tail := scanFrom keep (i + 1) rest
    ((if keep line then [(i + 1, line)] else []) ++ tail.1,
     (if r.isNone then [i + 1] else []) ++ tail.2)

/-- `Command::search`: reads the remaining lines of the open handle (from the
current shared file offset), keeping lines that contain the pattern; returns
the `(matches, error diagnostics)` pair and the command with its handle
advanced to end-of-file. -/
def Command.search (c : Command) : (List (Nat × String) × List Nat) × Command :=
  (scanFrom (fun line => strContains line c.pattern) 0 (c.lines.drop c.cursor),
   { c with cursor := c.lines.length })

/-- `Command::build`: the validation cascade.  Pattern check, then
`is_file`, then `exists`, then `canonicalize` and node-kind classification,
then `File::open`. -/
def Command.build (fs : FileSystem) (pattern filename : String) :
    Except InvalidArgumentError Command :=
  if trimmedIsEmpty pattern then
    .error (.BlankPattern pattern)
  else if ¬ fs.isFile filename then
    if ¬ fs.pathExists filename then
      .error (.FileNotFound filename)
    else
      match fs.canonical filename with
      | .error e => .error (.CannotResolvePath filename e)
      | .ok absolutePath =>
          .error (.NotAFile absolutePath
            (if fs.isDir absolutePath then "directory" else "unknown"))
  else
    match fs.node filename with
    | some nd =>
        if nd.readable then
          .ok { pattern := pattern, filename := filename, lines := nd.lines, cursor := 0 }
        else
          .error (.NotAReadableFile filename "permission denied")
    | none => .error (.NotAReadableFile filename "no such file")

/-- Result of `Command::try_from_iter`, which can also panic. -/
inductive TryFromResult where
  | panicked (msg : String)
  | failed (e : MiniGrepArgsError)
  | built (c : Command)
  deriving DecidableEq, Repr

/-- `Command::try_from_iter`: collects the argument iterator, checks the
argument count (3, including the executable name), and delegates to
`Command::build`. -/
def Command.tryFromIter (fs : FileSystem) (args : List String) : TryFromResult :=
  let amountArgs := args.length
  if amountArgs ≠ 3 then
    match args with
    | [] => .panicked "Missing the executable name."
    | exe :: _ =>
        if amountArgs > 3 then
          .failed (.ofInvalidSyntaxError (.TooMany exe))
        else
          .failed (.ofInvalidSyntaxError (.Missing exe))
  else
    match args with
    | [_, pattern, filename] =>
        match Command.build fs pattern filename with
        | .ok c => .built c
        | .error e => .failed (.ofInvalidArgumentError e)
    | _ => .panicked "unreachable: the argument count is three"

/-- Modelled from the spec: the process entry point of the module form of the
program.  The crate's `src/main.rs` is the earlier inlined revision; the
module entry point exists only as the documented usage in
`src/src/mini_grep.rs` (`Command::try_from(args())`, printing the error and
exiting with `error.code()` on failure, executing and ending the process
normally otherwise).  `none` models a panic (abort, not a clean exit). -/
def runMiniGrep (fs : FileSystem) (args : List String) : Option Int :=
  match Command.tryFromIter fs args with
  | .panicked _ => none
  | .failed e => some e.code
  | .built _ => some 0

/-! ## Case-mode search, modelled from the spec

The revision of `Command` that reads the `IGNORE_CASE` environment variable is
missing from the sources: only its end-to-end tests (in
src/src/mini_grep.rs) and the spec describe it.  The `search` under src/ is
always case-sensitive. -/

/-- Modelled from the spec: the match predicate with an explicit case mode —
case-sensitive is literal substring containment of the pattern in the line,
case-insensitive is substring containment after lower-casing both the pattern
and the line. -/
def matchesLine (caseSensitive : Bool) (pattern line : String) : Bool :=
  if caseSensitive then strContains line pattern
  else strContains (lowerStr line) (lowerStr pattern)

/-- Modelled from the spec: `search` with an explicit case mode, scanning a
freshly opened file. -/
def searchWithCase (caseSensitive : Bool) (pattern : String)
    (ls : List (Option String)) : List (Nat × String) × List Nat :=
  scanFrom (matchesLine caseSensitive pattern) 0 ls

/-! ## Concrete example data (resources/example.txt scenario of the spec) -/

/-- The scenario file content from the spec's testable properties. -/
def exampleContent : List String :=
  ["alpha", "beta Rust", "gamma RUST end"]

/-- The example regular, readable file node. -/
def exampleNode : FSNode :=
  { nodeType := .regularFile, readable := true, lines := exampleContent.map some }

/-- A directory node. -/
def directoryNode : FSNode :=
  { nodeType := .directory, readable := true, lines := [] }

/-- A small concrete filesystem: one readable regular file and one
directory whose canonicalization succeeds. -/
def exampleFS : FileSystem where
  node := fun p =>
    if p = "resources/example.txt" then some exampleNode
    else if p = "resources" then some directoryNode
    else if p = "/abs/resources" then some directoryNode
    else none
  canonical := fun p =>
    if p = "resources" then .ok "/abs/resources" else .error "io error"

/-- The command built from the example file with pattern `"Rust"`. -/
def exampleCommand : Command :=
  { pattern := "Rust", filename := "resources/example.txt",
    lines := exampleContent.map some, cursor := 0 }

/-! ## Lemmas about the scan -/

/-- Every kept pair of a scan started at index `k` has a line number above
`k`, and the line numbers are strictly ascending. -/
theorem scanFrom_pos_sorted (keep : String → Bool) (ls : List (Option String)) :
    ∀ k : Nat, (∀ x ∈ (scanFrom keep k ls).1, k < x.1) ∧
      List.Pairwise (fun a b : Nat × String => a.1 < b.1) (scanFrom keep k ls).1 := by
  induction ls with
  | nil =>
      intro k
      exact ⟨fun x hx => by simp [scanFrom] at hx, by simp [scanFrom]⟩
  | cons r rest ih =>
      intro k
      have ihk := ih (k + 1)
      have hmem : ∀ x ∈ (scanFrom keep k (r :: rest)).1, k < x.1 := by
        intro x hx
        simp only [scanFrom, List.mem_append] at hx
        rcases hx with hx | hx
        · rcases Bool.eq_false_or_eq_true (keep (r.getD "")) with hkeep | hkeep <;>
            simp [hkeep] at hx
          subst hx; omega
        · have := ihk.1 x hx; omega
      refine ⟨hmem, ?_⟩
      simp only [scanFrom]
      refine List.pairwise_append.mpr ⟨?_, ihk.2, ?_⟩
      · rcases Bool.eq_false_or_eq_true (keep (r.getD "")) with hkeep | hkeep <;>
          simp [hkeep]
      · intro a ha b hb
        rcases Bool.eq_false_or_eq_true (keep (r.getD "")) with hkeep | hkeep <;>
          simp [hkeep] at ha
        subst ha
        have := ihk.1 b hb
        omega

/-- The kept lines of a scan do not change when each failed read is replaced,
up front, by a successful read of the empty string. -/
theorem scanFrom_matches_getD (keep : String → Bool) (ls : List (Option String)) :
    ∀ k : Nat, (scanFrom keep k ls).1
      = (scanFrom keep k (ls.map fun r => some (r.getD ""))).1 := by
  induction ls with
  | nil => intro k; rfl
  | cons r rest ih => intro k; simp [scanFrom, ih (k + 1)]

/-- The error channel of a scan lists exactly the 1-indexed positions of the
failed line reads, in order. -/
theorem scanFrom_errs (keep : String → Bool) (ls : List (Option String)) :
    ∀ k : Nat, (scanFrom keep k ls).2
      = (List.enumFrom k ls).filterMap
          fun x => if x.2.isNone then some (x.1 + 1) else none := by
  induction ls with
  | nil => intro k; simp [scanFrom]
  | cons r rest ih =>
      intro k
      cases r <;> simp [scanFrom, List.enumFrom, ih (k + 1)]

/-- Membership in the kept lines of a scan over fully readable lines:
`(n, line)` is kept iff `line` sits at an index `j` with `n = k + j + 1` and
the keep predicate holds on it. -/
theorem mem_scanFrom_map_some (keep : String → Bool) (ls : List String) :
    ∀ (k n : Nat) (line : String),
      (n, line) ∈ (scanFrom keep k (ls.map some)).1 ↔
        ∃ j, ls.get? j = some line ∧ n = k + j + 1 ∧ keep line = true := by
  induction ls with
  | nil =>
      intro k n line
      simp [scanFrom]
  | cons l rest ih =>
      intro k n line
      simp only [List.map_cons, scanFrom, List.mem_append, Option.getD_some,
        Option.isNone_some]
      constructor
      · rintro (hx | hx)
        · rcases Bool.eq_false_or_eq_true (keep l) with hkeep | hkeep <;>
            simp [hkeep] at hx
          obtain ⟨hn, hl⟩ := hx
          subst hl
          exact ⟨0, by simp, by omega, hkeep⟩
        · rcases (ih (k + 1) n line).mp hx with ⟨j, hget, hn, hkeep⟩
          exact ⟨j + 1, by simpa using hget, by omega, hkeep⟩
      · rintro ⟨j, hget, hn, hkeep⟩
        cases j with
        | zero =>
            left
            simp at hget
            subst hget
            simp [hkeep]
            omega
        | succ j =>
            right
            refine (ih (k + 1) n line).mpr ⟨j, by simpa using hget, by omega, hkeep⟩

/-! ## Lemmas about substring containment -/

/-- A list is an initial segment of itself followed by anything. -/
theorem charsLead_append (p b : List Char) : charsLead p (p ++ b) = true := by
  induction p with
  | nil => rfl
  | cons c cs ih => simp [charsLead, ih]

/-- Containment is preserved by prepending characters. -/
theorem charsContain_cons_of (pat rest : List Char) (a : Char)
    (h : charsContain pat rest = true) : charsContain pat (a :: rest) = true := by
  simp only [charsContain, Bool.or_eq_true]
  exact Or.inr h

/-- Containment is preserved by prepending a list. -/
theorem charsContain_append_left (pat : List Char) (a rest : List Char)
    (h : charsContain pat rest = true) : charsContain pat (a ++ rest) = true := by
  induction a with
  | nil => simpa using h
  | cons x xs ih => exact charsContain_cons_of pat (xs ++ rest) x ih

/-- A list contains itself followed by anything. -/
theorem charsContain_self_append (pat b : List Char) :
    charsContain pat (pat ++ b) = true := by
  cases pat with
  | nil =>
      cases b with
      | nil => rfl
      | cons x xs => simp [charsContain, charsLead]
  | cons p ps =>
      have h := charsLead_append (p :: ps) b
      simp only [charsContain, Bool.or_eq_true]
      exact Or.inl (by simpa using h)

/-- A string of the shape `a ++ pat ++ b` contains `pat`. -/
theorem strContains_sandwich (a pat b : String) :
    strContains (a ++ pat ++ b) pat = true := by
  have : (a ++ pat ++ b).toList = a.toList ++ (pat.toList ++ b.toList) := by
    simp [String.toList, String.data_append]
  rw [strContains, this]
  exact charsContain_append_left _ _ _ (charsContain_self_append _ _)

/-! ## Claims -/

/-- C1, counterexample: `search` is not idempotent on the code.  On the
example file, the first call returns the match on line 2, while the second
call on the same `Command` returns the empty result, because the first call
advanced the shared file offset of the open handle to end-of-file. -/
theorem c1_search_counterexample :
    Command.build exampleFS "Rust" "resources/example.txt" = .ok exampleCommand
  ∧ (exampleCommand.search).1 = ([(2, "beta Rust")], [])
  ∧ ((exampleCommand.search).2.search).1 = ([], [])
  ∧ ((exampleCommand.search).2.search).1 ≠ (exampleCommand.search).1 := by
  decide

/-- C1, amended: calling `search` a second time on the same `Command` returns
the empty result (the first call leaves the shared file offset at
end-of-file), so the two calls return identical results exactly when the
first call already returned the empty result. -/
theorem c1_search_second_call (c : Command) :
    ((c.search).2.search).1 = ([], [])
  ∧ (((c.search).2.search).1 = (c.search).1 ↔ (c.search).1 = ([], [])) := by
  have h2 : ((c.search).2.search).1 = ([], []) := by
    simp [Command.search, List.drop_length, scanFrom]
  exact ⟨h2, by rw [h2]; exact eq_comm⟩

/-- C2: with `caseSensitive = false`, `search` keeps a line exactly when the
lower-cased line contains the lower-cased pattern; case-sensitive mode is the
scan of the source's `search`; and on a file containing the line
`"RustRover is great"`, pattern `"rust"` matches case-insensitively but not
case-sensitively. -/
theorem c2_case_insensitive_search :
    (∀ (pattern : String) (ls : List String) (n : Nat) (line : String),
        (n, line) ∈ (searchWithCase false pattern (ls.map some)).1 ↔
          ∃ j, ls.get? j = some line ∧ n = j + 1 ∧
            strContains (lowerStr line) (lowerStr pattern) = true)
  ∧ (∀ (pattern : String) (ls : List (Option String)),
        searchWithCase true pattern ls
          = scanFrom (fun line => strContains line pattern) 0 ls)
  ∧ (searchWithCase false "rust" [some "RustRover is great"]).1
      = [(1, "RustRover is great")]
  ∧ (searchWithCase true "rust" [some "RustRover is great"]).1 = [] := by
  refine ⟨?_, fun _ _ => rfl, by decide, by decide⟩
  intro pattern ls n line
  have h := mem_scanFrom_map_some (matchesLine false pattern) ls 0 n line
  simpa [searchWithCase, matchesLine] using h

/-- C2, witness. -/
theorem c2_case_insensitive_search_witness :
    (1, "RustRover is great") ∈ (searchWithCase false "rust" [some "RustRover is great"]).1 :=
  (c2_case_insensitive_search.1 "rust" ["RustRover is great"] 1 "RustRover is great").mpr
    ⟨0, by decide, rfl, by decide⟩

/-- C3: for every non-blank pattern and every readable regular file, `build`
succeeds, and the `search` of the resulting command returns `(n, line)` iff
`line` is line `n` of the file (1-indexed) and contains the pattern. -/
theorem c3_build_search_sound_complete (fs : FileSystem) (pattern filename : String)
    (nd : FSNode) (content : List String)
    (hpat : trimmedIsEmpty pattern = false)
    (hnode : fs.node filename = some nd)
    (htype : nd.nodeType = NodeType.regularFile)
    (hread : nd.readable = true)
    (hlines : nd.lines = content.map some) :
    Command.build fs pattern filename
      = .ok { pattern := pattern, filename := filename,
              lines := content.map some, cursor := 0 }
  ∧ ∀ (n : Nat) (line : String),
      (n, line) ∈ ((Command.mk pattern filename (content.map some) 0).search).1.1 ↔
        ∃ j, content.get? j = some line ∧ n = j + 1 ∧
          strContains line pattern = true := by
  have hisfile : fs.isFile filename = true := by
    simp [FileSystem.isFile, hnode, htype]
  refine ⟨by simp [Command.build, hpat, hisfile, hnode, hread, hlines], ?_⟩
  intro n line
  have h := mem_scanFrom_map_some (fun l => strContains l pattern) content 0 n line
  simpa [Command.search] using h

/-- C3, witness. -/
theorem c3_build_search_sound_complete_witness :
    Command.build exampleFS "Rust" "resources/example.txt" = .ok exampleCommand
  ∧ (2, "beta Rust") ∈ ((Command.mk "Rust" "resources/example.txt"
      (exampleContent.map some) 0).search).1.1 :=
  ⟨(c3_build_search_sound_complete exampleFS "Rust" "resources/example.txt"
      exampleNode exampleContent (by decide) (by decide) rfl rfl rfl).1,
   ((c3_build_search_sound_complete exampleFS "Rust" "resources/example.txt"
      exampleNode exampleContent (by decide) (by decide) rfl rfl rfl).2
      2 "beta Rust").mpr ⟨1, by decide, rfl, by decide⟩⟩

/-- C4: the validation cascade of `build`.  A blank pattern is rejected first
regardless of the filename; for a non-blank pattern, a nonexistent path gives
`FileNotFound` before any other path error; an existing path that is not a
regular file gives `CannotResolvePath` or `NotAFile` according to
canonicalization; and only a path classified as a regular file reaches the
open-for-reading attempt, where the sole remaining error is
`NotAReadableFile`. -/
theorem c4_validation_cascade (fs : FileSystem) (pattern filename : String) :
    (trimmedIsEmpty pattern = true →
      Command.build fs pattern filename = .error (.BlankPattern pattern))
  ∧ (trimmedIsEmpty pattern = false → fs.pathExists filename = false →
      Command.build fs pattern filename = .error (.FileNotFound filename))
  ∧ (∀ e, trimmedIsEmpty pattern = false → fs.isFile filename = false →
      fs.pathExists filename = true → fs.canonical filename = .error e →
      Command.build fs pattern filename = .error (.CannotResolvePath filename e))
  ∧ (∀ ap, trimmedIsEmpty pattern = false → fs.isFile filename = false →
      fs.pathExists filename = true → fs.canonical filename = .ok ap →
      Command.build fs pattern filename
        = .error (.NotAFile ap (if fs.isDir ap then "directory" else "unknown")))
  ∧ (trimmedIsEmpty pattern = false → fs.isFile filename = true →
      (∃ c, Command.build fs pattern filename = .ok c)
      ∨ (∃ cause, Command.build fs pattern filename
          = .error (.NotAReadableFile filename cause))) := by
  refine ⟨fun h => by simp [Command.build, h], ?_, ?_, ?_, ?_⟩
  · intro hpat hex
    have hnone : fs.node filename = none := by
      cases hnd : fs.node filename with
      | none => rfl
      | some nd => rw [FileSystem.pathExists, hnd] at hex; simp at hex
    have hfile : fs.isFile filename = false := by simp [FileSystem.isFile, hnone]
    simp [Command.build, hpat, hfile, hex]
  · intro e hpat hfile hex hcan
    simp [Command.build, hpat, hfile, hex, hcan]
  · intro ap hpat hfile hex hcan
    simp [Command.build, hpat, hfile, hex, hcan]
  · intro hpat hfile
    have hsome : ∃ nd, fs.node filename = some nd := by
      cases hnd : fs.node filename with
      | none => rw [FileSystem.isFile, hnd] at hfile; simp at hfile
      | some nd => exact ⟨nd, rfl⟩
    obtain ⟨nd, hnd⟩ := hsome
    rcases Bool.eq_false_or_eq_true nd.readable with hr | hr
    · exact Or.inl ⟨⟨pattern, filename, nd.lines, 0⟩,
        by simp [Command.build, hpat, hfile, hnd, hr]⟩
    · exact Or.inr ⟨"permission denied", by simp [Command.build, hpat, hfile, hnd, hr]⟩

/-- C4, witness. -/
theorem c4_validation_cascade_witness :
    Command.build exampleFS "  " "resources/example.txt" = .error (.BlankPattern "  ")
  ∧ Command.build exampleFS "Rust" "missing" = .error (.FileNotFound "missing")
  ∧ Command.build exampleFS "Rust" "resources"
      = .error (.NotAFile "/abs/resources" "directory") :=
  ⟨(c4_validation_cascade exampleFS "  " "resources/example.txt").1 (by decide),
   (c4_validation_cascade exampleFS "Rust" "missing").2.1 (by decide) (by decide),
   by
     have h := (c4_validation_cascade exampleFS "Rust" "resources").2.2.2.1
       "/abs/resources" (by decide) (by decide) (by decide) (by decide)
     have hd : exampleFS.isDir "/abs/resources" = true := by decide
     rw [hd] at h
     simpa using h⟩

/-- C5: during `search`, every failed line read is reported on the error
channel under its 1-indexed line number (in scan order, to the end of the
file), and the matches are exactly those of the same scan with each failed
read replaced by the empty string — a read failure never aborts the scan,
and `search` always returns normally. -/
theorem c5_line_read_failure_recovery (c : Command) :
    (c.search).1.2
      = (List.enumFrom 0 (c.lines.drop c.cursor)).filterMap
          (fun x => if x.2.isNone then some (x.1 + 1) else none)
  ∧ (c.search).1.1
      = (scanFrom (fun line => strContains line c.pattern) 0
          ((c.lines.drop c.cursor).map fun r => some (r.getD ""))).1 :=
  ⟨scanFrom_errs _ _ 0, scanFrom_matches_getD _ _ 0⟩

/-- C6: each failure variant carries its dedicated exit code (`Missing` 126,
`TooMany` 127, `BlankPattern` 130, `NotAFile` 131, `FileNotFound` 132,
`CannotResolvePath` 133, `NotAReadableFile` 134), a failed run exits with the
code of its error, and a successfully built command runs to a normal exit
with code 0. -/
theorem c6_exit_codes :
    (∀ s, (InvalidSyntaxError.Missing s).code = 126)
  ∧ (∀ s, (InvalidSyntaxError.TooMany s).code = 127)
  ∧ (∀ s, (InvalidArgumentError.BlankPattern s).code = 130)
  ∧ (∀ s t, (InvalidArgumentError.NotAFile s t).code = 131)
  ∧ (∀ s, (InvalidArgumentError.FileNotFound s).code = 132)
  ∧ (∀ s t, (InvalidArgumentError.CannotResolvePath s t).code = 133)
  ∧ (∀ s t, (InvalidArgumentError.NotAReadableFile s t).code = 134)
  ∧ (∀ fs args c, Command.tryFromIter fs args = .built c →
      runMiniGrep fs args = some 0)
  ∧ (∀ fs args e, Command.tryFromIter fs args = .failed e →
      runMiniGrep fs args = some (MiniGrepArgsError.code e)) := by
  refine ⟨fun _ => rfl, fun _ => rfl, fun _ => rfl, fun _ _ => rfl, fun _ => rfl,
    fun _ _ => rfl, fun _ _ => rfl, ?_, ?_⟩
  · intro fs args c h; simp [runMiniGrep, h]
  · intro fs args e h; simp [runMiniGrep, h]

/-- C6, witness. -/
theorem c6_exit_codes_witness :
    runMiniGrep exampleFS ["prog", "Rust", "resources/example.txt"] = some 0
  ∧ runMiniGrep exampleFS ["prog", " ", "resources/example.txt"] = some 130 :=
  ⟨c6_exit_codes.2.2.2.2.2.2.2.1 exampleFS ["prog", "Rust", "resources/example.txt"]
      exampleCommand (by decide),
   c6_exit_codes.2.2.2.2.2.2.2.2 exampleFS ["prog", " ", "resources/example.txt"]
      (.ofInvalidArgumentError (.BlankPattern " ")) (by decide)⟩

/-- C7: for every pattern whose trim is empty, `build` fails with the
blank-pattern error carrying the exact original untrimmed string, and the
error's display message embeds that exact original string. -/
theorem c7_blank_pattern_error (fs : FileSystem) (pattern filename : String)
    (h : trimmedIsEmpty pattern = true) :
    Command.build fs pattern filename = .error (.BlankPattern pattern)
  ∧ InvalidArgumentError.display (.BlankPattern pattern)
      = "Cannot have a blank searched text '" ++ pattern ++ "'."
  ∧ strContains (InvalidArgumentError.display (.BlankPattern pattern)) pattern
      = true :=
  ⟨by simp [Command.build, h], rfl,
   strContains_sandwich "Cannot have a blank searched text '" pattern "'."⟩

/-- C7, witness: both the empty and the whitespace-only pattern. -/
theorem c7_blank_pattern_error_witness :
    Command.build exampleFS "" "resources/example.txt" = .error (.BlankPattern "")
  ∧ Command.build exampleFS "   " "resources/example.txt"
      = .error (.BlankPattern "   ") :=
  ⟨(c7_blank_pattern_error exampleFS "" "resources/example.txt" (by decide)).1,
   (c7_blank_pattern_error exampleFS "   " "resources/example.txt" (by decide)).1⟩

/-- C8: with the executable name present, fewer than two positional arguments
fail with `Missing` carrying the executable name, more than two fail with
`TooMany` carrying the executable name, and exactly two proceed to the
validation of `build`. -/
theorem c8_argument_arity (fs : FileSystem) (exe : String) (rest : List String) :
    (rest.length < 2 →
      Command.tryFromIter fs (exe :: rest)
        = .failed (.ofInvalidSyntaxError (.Missing exe)))
  ∧ (rest.length > 2 →
      Command.tryFromIter fs (exe :: rest)
        = .failed (.ofInvalidSyntaxError (.TooMany exe)))
  ∧ (∀ pattern filename, rest = [pattern, filename] →
      Command.tryFromIter fs (exe :: rest)
        = match Command.build fs pattern filename with
          | .ok c => .built c
          | .error e => .failed (.ofInvalidArgumentError e)) := by
  refine ⟨?_, ?_, ?_⟩
  · intro h
    match rest, h with
    | [], _ => rfl
    | [a], _ => rfl
  · intro h
    match rest, h with
    | a :: b :: d :: rest', _ =>
      have h3 : (exe :: a :: b :: d :: rest').length ≠ 3 := by
        simp only [List.length_cons]; omega
      have hgt : (exe :: a :: b :: d :: rest').length > 3 := by
        simp only [List.length_cons]; omega
      simp [Command.tryFromIter, h3, hgt]
  · intro pattern filename hrest
    subst hrest
    rfl

/-- C8, witness. -/
theorem c8_argument_arity_witness :
    Command.tryFromIter exampleFS ["prog"]
      = .failed (.ofInvalidSyntaxError (.Missing "prog"))
  ∧ Command.tryFromIter exampleFS ["prog", "a", "b", "c"]
      = .failed (.ofInvalidSyntaxError (.TooMany "prog"))
  ∧ Command.tryFromIter exampleFS ["prog", "Rust", "resources/example.txt"]
      = .built exampleCommand :=
  ⟨(c8_argument_arity exampleFS "prog" []).1 (by decide),
   (c8_argument_arity exampleFS "prog" ["a", "b", "c"]).2.1 (by decide),
   by
     have h := (c8_argument_arity exampleFS "prog" ["Rust", "resources/example.txt"]).2.2
       "Rust" "resources/example.txt" rfl
     rw [h]
     decide⟩

/-- C9: every `search` result is an ordered sequence of pairs with strictly
ascending, 1-indexed positive line numbers; the empty sequence is a normal
value of the result type, not an error. -/
theorem c9_result_invariants (c : Command) :
    List.Pairwise (fun a b : Nat × String => a.1 < b.1) (c.search).1.1
  ∧ ((c.search).1.1).all (fun x => decide (1 ≤ x.1)) = true := by
  have h := scanFrom_pos_sorted (fun line => strContains line c.pattern)
    (c.lines.drop c.cursor) 0
  refine ⟨h.2, ?_⟩
  rw [List.all_eq_true]
  intro x hx
  have hpos := h.1 x hx
  simp only [decide_eq_true_eq]
  omega

/-- C10: with a completely empty argument list, `try_from_iter` panics with a
fatal abort instead of returning a typed error, and the `Missing` error is
produced only when the executable name heads the argument list. -/
theorem c10_empty_args_panic (fs : FileSystem) :
    Command.tryFromIter fs [] = .panicked "Missing the executable name."
  ∧ ∀ (args : List String) (e : String),
      Command.tryFromIter fs args = .failed (.ofInvalidSyntaxError (.Missing e)) →
        ∃ rest, args = e :: rest := by
  refine ⟨rfl, ?_⟩
  intro args e h
  match args with
  | [] => simp [Command.tryFromIter] at h
  | exe :: rest =>
    refine ⟨rest, ?_⟩
    suffices hx : exe = e by rw [hx]
    match rest with
    | [] => simpa [Command.tryFromIter] using h
    | [a] => simpa [Command.tryFromIter] using h
    | [a, b] =>
        exfalso
        rcases hb : Command.build fs a b with e' | c'
        · simp [Command.tryFromIter, hb] at h
        · simp [Command.tryFromIter, hb] at h
    | a :: b :: d :: rest' =>
        exfalso
        have h3 : (exe :: a :: b :: d :: rest').length ≠ 3 := by
          simp only [List.length_cons]; omega
        have hgt : (exe :: a :: b :: d :: rest').length > 3 := by
          simp only [List.length_cons]; omega
        simp [Command.tryFromIter, h3, hgt] at h

/-- C10, witness. -/
theorem c10_empty_args_panic_witness :
    Command.tryFromIter exampleFS [] = .panicked "Missing the executable name."
  ∧ ∃ rest, ["prog"] = "prog" :: rest :=
  ⟨(c10_empty_args_panic exampleFS).1,
   (c10_empty_args_panic exampleFS).2 ["prog"] "prog" (by decide)⟩

end MiniGrep
